import Mathlib

/-!
Shallow embedding of the download orchestration core of `src/main.py`
(a FastAPI video download proxy), together with theorems checking the
natural-language specification against it.

Conventions of the embedding:
* Python byte strings and text are modelled as `String` / `List Char`;
  raw media bytes as `List Nat`.
* Python `None` becomes `Option.none`; machine integers are `Nat`/`Int`;
  the float bitrates compared by `max` keys are modelled exactly as `ℚ`
  (the comparisons the code performs agree with the exact order on the
  values yt-dlp reports, which are well inside the exact float range).
* Subprocess outcomes (`proc.returncode`, captured `stderr`, whether the
  JSON parse succeeds, whether the output file exists) are explicit
  parameters, because the external process is a black box at the
  boundary of the spec.
-/

/-- Tests whether the first list is an initial segment of the second
(character-wise equality). -/
def startsWithList : List Char → List Char → Bool
  | [], _ => true
  | _ :: _, [] => false
  | a :: as, b :: bs => a == b && startsWithList as bs

/-- Occurrence of `needle` as a contiguous substring of `hay`, mirroring
Python's `needle in hay` on strings (case-sensitive). -/
def pySubstr (needle : List Char) : List Char → Bool
  | [] => needle.isEmpty
  | c :: rest => startsWithList needle (c :: rest) || pySubstr needle rest

/-- Python `pat in s` for strings. -/
def containsSub (s pat : String) : Bool := pySubstr pat.data s.data

/-- The age-restriction test the code repeats at `src/main.py:44`, `:151`
and `:181`: either marker phrase occurring in the diagnostic text. -/
def isAgeRestrictedText (s : String) : Bool :=
  containsSub s "age-restricted" || containsSub s "Sign in to confirm your age"

/-- Outcome of `get_video_meta` (`src/main.py:34`): which HTTPException is
raised, or a successful parse. -/
inductive MetaOutcome where
  | ageRestricted403
  | upstream502
  | parse502
  | ok
deriving DecidableEq, Repr

/-- `get_video_meta` (`src/main.py:34-50`) reduced to its control flow:
the subprocess's exit status, its decoded stderr, and whether `json.loads`
succeeds on its stdout determine the outcome. -/
def get_video_meta (returncode : Int) (stderr_output : String)
    (stdoutParses : Bool) : MetaOutcome :=
  if returncode ≠ 0 then
    if isAgeRestrictedText stderr_output then .ageRestricted403 else .upstream502
  else if stdoutParses then .ok else .parse502

/-- `MAX_BYTES` (`src/main.py:15`): hard size cap, 1 GiB. -/
def MAX_BYTES : Nat := 1 * 1024 * 1024 * 1024

/-- The fixed chunk size of the relay loop (`src/main.py:193`). -/
def chunk_size : Nat := 65536

/-- The relay loop of `stream_content` (`src/main.py:192-200`): walk the
buffered stdout in 64 KiB chunks, add each chunk's length to the running
total before deciding, break (yield nothing further) once the total
exceeds `MAX_BYTES`, otherwise yield the chunk.  The fuel argument is an
upper bound on the number of iterations; `relayChunks` supplies
`data.length`, which dominates the Python loop's `range(0, len, 65536)`. -/
def relayGo : Nat → List Nat → Nat → List Nat
  | 0, _, _ => []
  | _ + 1, [], _ => []
  | fuel + 1, a :: rest, total =>
    let chunk := (a :: rest).take chunk_size
    let total' := total + chunk.length
    if MAX_BYTES < total' then []
    else chunk ++ relayGo fuel ((a :: rest).drop chunk_size) total'

/-- The concatenation of all bytes the relay loop yields for a buffered
payload. -/
def relayChunks (stdout_data : List Nat) : List Nat :=
  relayGo stdout_data.length stdout_data 0

/-- `stream_content` (`src/main.py:174-203`) reduced to the bytes it
yields: on a nonzero exit the two age-restriction markers end the stream
empty; any other nonzero exit whose stderr lacks the benign merge warning
"does not start with a start code" also ends it empty; otherwise the
buffered stdout is relayed under the size ceiling. -/
def stream_content (returncode : Int) (stderr_output : String)
    (stdout_data : List Nat) : List Nat :=
  if returncode ≠ 0 then
    if isAgeRestrictedText stderr_output then []
    else if !containsSub stderr_output "does not start with a start code" then []
    else relayChunks stdout_data
  else relayChunks stdout_data

/-- Outcome of the mp3 branch of `download_video`: an HTTPException with a
status code, or the file-backed streaming response. -/
inductive Mp3Outcome where
  | httpError (status : Nat)
  | fileStream
deriving DecidableEq, Repr

/-- The failure handling of the mp3 branch of `download_video`
(`src/main.py:149-158`): on nonzero exit or a missing output file the
request fails with 403 (age-restricted diagnostic) or 502 before any
bytes are sent; otherwise the file-backed stream is returned. -/
def download_video_mp3 (returncode : Int) (outputExists : Bool)
    (stderr : String) : Mp3Outcome :=
  if returncode ≠ 0 ∨ outputExists = false then
    if isAgeRestrictedText stderr then .httpError 403 else .httpError 502
  else .fileStream

/-- One candidate rendition from the yt-dlp `formats` array, restricted to
the keys `get_video_info` (`src/main.py:85-115`) reads.  `none` models an
absent (or JSON-null) key; the code's `f.get(k)` becomes `Option.getD`
where a default is supplied. -/
structure SourceStream where
  vcodec : Option String
  acodec : Option String
  height : Option Nat
  vbr : Option ℚ
  abr : Option ℚ
  filesize : Option Nat
  filesize_approx : Option Nat
deriving DecidableEq, Repr

/-- Python's `max(xs, key=key)` on a nonempty list: scan left to right and
replace the current best only on a strictly larger key, so the first
maximum wins ties. -/
def pyMaxFold {α β : Type} [LinearOrder β] (key : α → β) (x : α) (xs : List α) : α :=
  xs.foldl (fun best y => if key best < key y then y else best) x

/-- Python's `max(xs, key=key, default=None)`. -/
def pyMaxList {α β : Type} [LinearOrder β] (key : α → β) : List α → Option α
  | [] => none
  | x :: xs => some (pyMaxFold key x xs)

/-- Python truthiness of an optional integer: `None` and `0` are falsy. -/
def pyTruthy : Option Nat → Bool
  | none => false
  | some n => n != 0

/-- Python's `a or b` on optional integers. -/
def pyOr (a b : Option Nat) : Option Nat := if pyTruthy a then a else b

/-- `f.get('filesize') or f.get('filesize_approx')` (`src/main.py:89`). -/
def sizeField (f : SourceStream) : Option Nat := pyOr f.filesize f.filesize_approx

/-- `f.get('filesize') or f.get('filesize_approx') or 0`
(`src/main.py:104-105`). -/
def size_or_zero (f : SourceStream) : Nat := (sizeField f).getD 0

/-- The audio-only filter (`src/main.py:86` and `:100`):
`acodec != 'none' and vcodec == 'none'`. -/
def audio_streams (formats : List SourceStream) : List SourceStream :=
  formats.filter fun f => decide (f.acodec ≠ some "none") && decide (f.vcodec = some "none")

/-- The silent-video filter under a height ceiling (`src/main.py:93-97`):
`vcodec != 'none' and acodec == 'none' and (height or 0) <= height_req`. -/
def video_streams (height_req : Nat) (formats : List SourceStream) : List SourceStream :=
  formats.filter fun f =>
    decide (f.vcodec ≠ some "none") && decide (f.acodec = some "none") &&
      decide (f.height.getD 0 ≤ height_req)

/-- The combined-stream filter under a height ceiling
(`src/main.py:108-112`): both codecs present and `(height or 0) <= height_req`. -/
def combined_streams (height_req : Nat) (formats : List SourceStream) : List SourceStream :=
  formats.filter fun f =>
    decide (f.vcodec ≠ some "none") && decide (f.acodec ≠ some "none") &&
      decide (f.height.getD 0 ≤ height_req)

/-- The key `lambda x: (x.get('height', 0), x.get('vbr', 0))` of the video
and combined `max` calls; Python tuple comparison is lexicographic. -/
def vidKey (f : SourceStream) : Lex (Nat × ℚ) := toLex (f.height.getD 0, f.vbr.getD 0)

/-- The key `lambda x: x.get('abr', 0)` of the audio `max` calls. -/
def audKey (f : SourceStream) : ℚ := f.abr.getD 0

/-- `best_video` (`src/main.py:98`). -/
def best_video (height_req : Nat) (formats : List SourceStream) : Option SourceStream :=
  pyMaxList vidKey (video_streams height_req formats)

/-- `best_audio` (`src/main.py:87` and `:101`). -/
def best_audio (formats : List SourceStream) : Option SourceStream :=
  pyMaxList audKey (audio_streams formats)

/-- `best_combined` (`src/main.py:113`). -/
def best_combined (height_req : Nat) (formats : List SourceStream) : Option SourceStream :=
  pyMaxList vidKey (combined_streams height_req formats)

/-- The `estimated_size` computed by the mp3 branch of `get_video_info`
(`src/main.py:85-89`): `None` (rendered "N/A") when no audio-only stream
exists, else the best audio stream's `filesize or filesize_approx`. -/
def mp3_estimated_size (formats : List SourceStream) : Option Nat :=
  match best_audio formats with
  | none => none
  | some ba => sizeField ba

/-- The `estimated_size` computed by the video branch of `get_video_info`
(`src/main.py:93-115`): when both a best silent-video and a best
audio-only stream exist, the sum of their sizes with Python-falsy sizes
replaced along `filesize or filesize_approx or 0`; otherwise the best
combined stream's size (or `None`). -/
def video_estimated_size (height_req : Nat) (formats : List SourceStream) : Option Nat :=
  match best_video height_req formats, best_audio formats with
  | some bv, some ba => some (size_or_zero bv + size_or_zero ba)
  | _, _ =>
    match best_combined height_req formats with
    | some bc => sizeField bc
    | none => none

/-- The `power_labels` dict of `format_bytes` (`src/main.py:62`); the loop
guard keeps the index at most 4, so the catch-all is never reached from
`format_bytes`. -/
def power_labels : Nat → String
  | 0 => "B"
  | 1 => "KB"
  | 2 => "MB"
  | 3 => "GB"
  | _ => "TB"

/-- The `while size >= power and n < len(power_labels) - 1` loop of
`format_bytes` (`src/main.py:63-65`), dividing by 1024 and bumping the
unit index.  The division is exact (`ℚ`); Python performs it in binary
floating point, where it is also exact for every byte count below 2^53.
Fuel 4 is exact: the `n < 4` guard stops the loop after four iterations. -/
def fbLoop : Nat → ℚ → Nat → ℚ × Nat
  | 0, size, n => (size, n)
  | fuel + 1, size, n =>
    if 1024 ≤ size ∧ n < 4 then fbLoop fuel (size / 1024) (n + 1) else (size, n)

/-- The unit index the loop of `format_bytes` reaches, computed over `Nat`:
with the running value held exactly at `size / 1024 ^ n`, the guard
`1024 <= size / 1024 ^ n` is `1024 ^ (n + 1) <= size`.  The lemma
`fbLoop_eq_fbLoopN` below proves this agrees with the rational loop
`fbLoop`. -/
def fbLoopN : Nat → Nat → Nat → Nat
  | 0, _, n => n
  | fuel + 1, size, n =>
    if 1024 ^ (n + 1) ≤ size ∧ n < 4 then fbLoopN fuel size (n + 1) else n

/-- Rounds `num / den` (with `den > 0`) to the nearest integer, ties to
even: the rounding Python's fixed-point float formatting applies. -/
def rhe (num den : Nat) : Nat :=
  let q := num / den
  let r := num % den
  if 2 * r < den then q
  else if den < 2 * r then q + 1
  else if q % 2 = 0 then q else q + 1

/-- Python's `f"{x:.2f}"` on the nonnegative exact value `num / den`: two
decimal digits, round half to even. -/
def formatFixed2 (num den : Nat) : String :=
  let h := rhe (100 * num) den
  Nat.repr (h / 100) ++ "." ++
    (if h % 100 < 10 then "0" ++ Nat.repr (h % 100) else Nat.repr (h % 100))

/-- `format_bytes` (`src/main.py:58-66`): the final `f"{size:.2f}
{power_labels[n]}"` renders the exact value `size / 1024 ^ n` of the
loop's float variable. -/
def format_bytes : Option Nat → String
  | none => "N/A"
  | some size =>
    let n := fbLoopN 4 size 0
    formatFixed2 size (1024 ^ n) ++ " " ++ power_labels n

/-- ASCII whitespace as matched by Python's regex class on these inputs. -/
def pyWhitespace (c : Char) : Bool :=
  c == ' ' || c == '\t' || c == '\n' || c == '\r' || c == '\x0b' || c == '\x0c'

/-- State machine for `re.sub(r'\s+', '_', name)` (`src/main.py:26`): each
maximal whitespace run becomes one underscore; the flag records whether
the previous character was whitespace. -/
def collapseWsAux : Bool → List Char → List Char
  | _, [] => []
  | inRun, c :: rest =>
    if pyWhitespace c then
      if inRun then collapseWsAux true rest else '_' :: collapseWsAux true rest
    else c :: collapseWsAux false rest

/-- `re.sub(r'\s+', '_', name)`. -/
def collapseWs (l : List Char) : List Char := collapseWsAux false l

/-- Membership in the character class `[A-Za-z0-9_.-]` (`src/main.py:27`). -/
def allowedChar (c : Char) : Bool :=
  decide (('A' ≤ c ∧ c ≤ 'Z') ∨ ('a' ≤ c ∧ c ≤ 'z') ∨ ('0' ≤ c ∧ c ≤ '9') ∨
    c = '_' ∨ c = '.' ∨ c = '-')

/-- The character set of `.strip('_.-')` (`src/main.py:27`). -/
def stripSet (c : Char) : Bool := c == '_' || c == '.' || c == '-'

/-- Python's `s.strip(chars)`: drop the longest run of set members from
each end. -/
def pyStrip (l : List Char) : List Char :=
  ((l.dropWhile stripSet).reverse.dropWhile stripSet).reverse

/-- `sanitize_filename` (`src/main.py:25-28`): collapse whitespace runs to
single underscores, delete everything outside `[A-Za-z0-9_.-]`, trim
leading and trailing `_` `.` `-`, and fall back to "download" when
nothing remains. -/
def sanitize_filename (name : String) : String :=
  let underscored := collapseWs name.data
  let safe := pyStrip (underscored.filter allowedChar)
  if safe = [] then "download" else String.mk safe

/-- Value of an ASCII digit character. -/
def digitVal (c : Char) : Nat := c.toNat - 48

/-- Digit scanner for Python's `int()`: after the first digit, further
digits may be separated by single underscores; a trailing or doubled
underscore is invalid.  The flag records whether the previous character
was an underscore. -/
def pyDigitsAux : List Char → Nat → Bool → Option Nat
  | [], acc, afterU => if afterU then none else some acc
  | c :: rest, acc, afterU =>
    if c.isDigit then pyDigitsAux rest (10 * acc + digitVal c) false
    else if c == '_' && !afterU then pyDigitsAux rest acc true
    else none

/-- Nonempty digit sequence for Python's `int()`; it must begin with a
digit. -/
def pyDigits : List Char → Option Nat
  | [] => none
  | c :: rest => if c.isDigit then pyDigitsAux rest (digitVal c) false else none

/-- Python's `int(s)` on an ASCII string: strip surrounding whitespace,
allow one sign, then a digit sequence with underscore separators;
`none` models the `ValueError` raised on anything else. -/
def pyIntOfString (s : String) : Option Int :=
  let t := ((s.data.dropWhile pyWhitespace).reverse.dropWhile pyWhitespace).reverse
  match t with
  | [] => none
  | c :: rest =>
    if c = '-' then (pyDigits rest).map fun n => -(n : Int)
    else if c = '+' then (pyDigits rest).map fun n => (n : Int)
    else (pyDigits t).map fun n => (n : Int)

/-- The height-ceiling computation of the video branch of `get_video_info`
(`src/main.py:91`): `int(quality_req.replace("p", "")) if "p" in
quality_req else 10000`.  `none` models the uncaught `ValueError` that
`int()` raises when the remaining characters are not a valid integer
literal. -/
def previewHeightReq (quality : String) : Option Int :=
  if quality.data.contains 'p' then
    pyIntOfString (String.mk (quality.data.filter fun c => !(c == 'p')))
  else some 10000

/-- Specification-side definition (claim C8's words): the largest
base-1024 unit index whose magnitude is at least 1, with the TB tier (4)
used uncapped for larger values. -/
def unitIndex (s : Nat) : Nat :=
  if s < 1024 then 0
  else if s < 1024 ^ 2 then 1
  else if s < 1024 ^ 3 then 2
  else if s < 1024 ^ 4 then 3
  else 4

/-- Specification-side definition (claim C5's words): a component's size
with the exact size preferred over the approximate one and an unknown
size replaced by 0. -/
def claimCompSize (f : SourceStream) : Nat :=
  match f.filesize with
  | some n => n
  | none => f.filesize_approx.getD 0

/-- The component size rule the code actually implements
(`filesize or filesize_approx or 0`): an exact size recorded as `0` is
falsy in Python, so the approximate size is used in its place. -/
def amendedCompSize (f : SourceStream) : Nat :=
  match f.filesize with
  | some (n + 1) => n + 1
  | _ => f.filesize_approx.getD 0

/-- Concrete silent-video stream for exercising the video selector:
height 720, vbr 5. -/
def witC3a : SourceStream := ⟨some "avc1", some "none", some 720, some 5, none, some 1000, none⟩

/-- Concrete silent-video stream tying `witC3a` on `(height, vbr)`. -/
def witC3b : SourceStream := ⟨some "vp9", some "none", some 720, some 5, none, some 900, none⟩

/-- Concrete silent-video stream above a 720 ceiling. -/
def witC3c : SourceStream := ⟨some "avc1", some "none", some 1080, some 9, none, none, none⟩

/-- Concrete audio-only stream, abr 128. -/
def witC4a : SourceStream := ⟨some "none", some "mp4a", none, none, some 128, some 3000, none⟩

/-- Concrete audio-only stream, abr 160. -/
def witC4b : SourceStream := ⟨some "none", some "opus", none, none, some 160, none, some 2500⟩

/-- Concrete silent-video stream whose exact size is recorded as 0 while
an approximate size is present — the input separating the code's
`filesize or filesize_approx or 0` from the claim's "exact preferred". -/
def cexC5v : SourceStream := ⟨some "avc1", some "none", some 720, some 5, none, some 0, some 512⟩

/-- Concrete audio-only stream with a known exact size. -/
def cexC5a : SourceStream := ⟨some "none", some "mp4a", none, none, some 128, some 100, none⟩

example : containsSub "xx age-restricted yy" "age-restricted" = true := by decide
example : isAgeRestrictedText "Sign in to confirm your age" = true := by decide
example : isAgeRestrictedText "some other error" = false := by decide
example : relayChunks [3, 4] = [3, 4] := by decide
example : stream_content 1 "boom" [3, 4] = [] := by decide
example :
    best_video 720 [⟨some "avc1", some "none", some 720, some 5, none, some 1000, none⟩,
      ⟨some "avc1", some "none", some 1080, some 9, none, some 2000, none⟩] =
    some ⟨some "avc1", some "none", some 720, some 5, none, some 1000, none⟩ := by decide
example :
    best_video 1080 [⟨some "avc1", some "none", some 720, some 5, none, some 1000, none⟩,
      ⟨some "avc1", some "none", some 720, some 7, none, some 2000, none⟩] =
    some ⟨some "avc1", some "none", some 720, some 7, none, some 2000, none⟩ := by decide
example : format_bytes none = "N/A" := by decide
example : format_bytes (some 0) = "0.00 B" := by decide
example : format_bytes (some 1024) = "1.00 KB" := by decide
example : format_bytes (some 1536000) = "1.46 MB" := by decide
example : format_bytes (some 1152) = "1.12 KB" := by decide
example : sanitize_filename "My Video!! (2023).mp4" = "My_Video_2023.mp4" := by decide
example : sanitize_filename "   " = "download" := by decide
example : pyIntOfString "1080" = some 1080 := by decide
example : pyIntOfString " -1_080 " = some (-1080) := by decide
example : pyIntOfString "ale" = none := by decide
example : pyIntOfString "" = none := by decide
example : previewHeightReq "1080p" = some 1080 := by decide
example : previewHeightReq "best" = some 10000 := by decide
example : previewHeightReq "p" = none := by decide

/-! ## Relay-loop lemmas -/

theorem relayGo_complete : ∀ (fuel : Nat) (l : List Nat) (total : Nat),
    l.length ≤ fuel → total + l.length ≤ MAX_BYTES → relayGo fuel l total = l := by
  intro fuel
  induction fuel with
  | zero =>
    intro l total hlen _
    have hl : l = [] := List.eq_nil_of_length_eq_zero (Nat.le_zero.mp hlen)
    subst hl; rfl
  | succ n ih =>
    intro l total hlen hle
    cases l with
    | nil => rfl
    | cons a rest =>
      have hlen2 : ((a :: rest).take chunk_size).length = min chunk_size (a :: rest).length :=
        List.length_take _ _
      have h1 : ¬ MAX_BYTES < total + ((a :: rest).take chunk_size).length := by
        rw [hlen2]
        have h2 := min_le_right chunk_size (a :: rest).length
        omega
      simp only [relayGo]
      rw [if_neg h1]
      have hrec := ih ((a :: rest).drop chunk_size)
        (total + ((a :: rest).take chunk_size).length) ?_ ?_
      · rw [hrec, List.take_append_drop]
      · rw [List.length_drop]
        simp only [chunk_size]
        simp only [List.length_cons] at hlen ⊢
        omega
      · rw [List.length_drop, hlen2]
        have h3 := min_le_right chunk_size (a :: rest).length
        have h4 := min_le_left chunk_size (a :: rest).length
        omega

theorem relayGo_truncate : ∀ (fuel : Nat) (l : List Nat) (total : Nat),
    l.length ≤ fuel → (∃ k, total = chunk_size * k) → total ≤ MAX_BYTES →
    MAX_BYTES < total + l.length →
    relayGo fuel l total = l.take (MAX_BYTES - total) := by
  intro fuel
  induction fuel with
  | zero =>
    intro l total hlen _ hle hgt
    have hl : l = [] := List.eq_nil_of_length_eq_zero (Nat.le_zero.mp hlen)
    subst hl
    simp only [List.length_nil, Nat.add_zero] at hgt
    omega
  | succ n ih =>
    intro l total hlen hdvd hle hgt
    cases l with
    | nil =>
      simp only [List.length_nil, Nat.add_zero] at hgt
      omega
    | cons a rest =>
      obtain ⟨k, hk⟩ := hdvd
      have hlen2 : ((a :: rest).take chunk_size).length = min chunk_size (a :: rest).length :=
        List.length_take _ _
      by_cases hbr : MAX_BYTES < total + ((a :: rest).take chunk_size).length
      · have htot : total = MAX_BYTES := by
          rw [hlen2] at hbr
          have hmin := min_le_left chunk_size (a :: rest).length
          simp only [chunk_size] at hk hmin hbr
          simp only [MAX_BYTES] at hle hbr ⊢
          omega
        simp only [relayGo]
        rw [if_pos hbr, htot, Nat.sub_self, List.take_zero]
      · have hcsle : chunk_size ≤ (a :: rest).length := by
          by_contra hc
          push_neg at hc
          rw [hlen2, min_eq_right (le_of_lt hc)] at hbr
          omega
        have hlen3 : ((a :: rest).take chunk_size).length = chunk_size := by
          rw [hlen2, min_eq_left hcsle]
        have hcs1 : 1 ≤ chunk_size := by simp only [chunk_size]; omega
        have hnb : ¬ MAX_BYTES < total + chunk_size := by rw [hlen3] at hbr; exact hbr
        have hrec := ih ((a :: rest).drop chunk_size) (total + chunk_size) ?_ ?_ ?_ ?_
        · simp only [relayGo]
          rw [if_neg hbr, hlen3, hrec]
          conv_rhs =>
            rw [show MAX_BYTES - total = chunk_size + (MAX_BYTES - (total + chunk_size)) by omega,
              List.take_add]
        · rw [List.length_drop]
          omega
        · exact ⟨k + 1, by rw [hk]; ring⟩
        · omega
        · rw [List.length_drop]
          omega

/-- C2: a buffered stdout payload longer than the 1 GiB ceiling is
relayed as the strict prefix of exactly `MAX_BYTES` bytes (the ceiling is
itself a whole multiple of the 64 KiB chunk), a payload of at most
`MAX_BYTES` bytes is relayed whole, and on a clean exit `stream_content`
yields exactly this relay of the payload. -/
theorem C2_size_ceiling : ∀ data : List Nat,
    (data.length ≤ MAX_BYTES → relayChunks data = data) ∧
    (MAX_BYTES < data.length →
      relayChunks data = data.take MAX_BYTES ∧ (relayChunks data).length = MAX_BYTES) ∧
    stream_content 0 "" data = relayChunks data := by
  intro data
  refine ⟨fun h => ?_, fun h => ⟨?_, ?_⟩, ?_⟩
  · exact relayGo_complete data.length data 0 le_rfl (by omega)
  · have := relayGo_truncate data.length data 0 le_rfl ⟨0, by ring⟩ (by omega) (by omega)
    simpa [relayChunks] using this
  · have := relayGo_truncate data.length data 0 le_rfl ⟨0, by ring⟩ (by omega) (by omega)
    rw [relayChunks, this, List.length_take]
    omega
  · simp [stream_content]

/-- Witness for C2 at concrete payloads: a short payload is emitted
whole, and a payload one byte over the ceiling is cut to the ceiling. -/
theorem C2_size_ceiling_witness :
    relayChunks [1, 2, 3] = [1, 2, 3] ∧
    relayChunks (List.replicate (MAX_BYTES + 1) 0) =
      (List.replicate (MAX_BYTES + 1) 0).take MAX_BYTES :=
  ⟨(C2_size_ceiling [1, 2, 3]).1 (by decide),
   ((C2_size_ceiling (List.replicate (MAX_BYTES + 1) 0)).2.1
      (by rw [List.length_replicate]; omega)).1⟩

/-! ## Error classification (C1, C6, C7) -/

/-- Counterexample to C1 as stated: the claim quantifies over every exit
status including zero, but on a zero exit neither `get_video_meta` nor
`stream_content` consults the age-restriction markers — the metadata call
succeeds and the stream relays the payload instead of being empty. -/
theorem C1_counterexample :
    isAgeRestrictedText "age-restricted" = true ∧
    get_video_meta 0 "age-restricted" true = MetaOutcome.ok ∧
    get_video_meta 0 "age-restricted" true ≠ MetaOutcome.ageRestricted403 ∧
    stream_content 0 "age-restricted" [3, 4] = [3, 4] ∧
    stream_content 0 "age-restricted" [3, 4] ≠ [] := by decide

/-- C1 (amended): for every NONZERO exit status, diagnostic text
containing either age-restriction marker phrase classifies the outcome as
age-restricted in all three places — `get_video_meta` raises 403
regardless of whether stdout would parse, the mp3 download path raises
403 regardless of whether the output file exists, and `stream_content`
ends the stream with zero bytes — regardless of which nonzero value the
exit status has.  (On a zero exit status the markers are not consulted by
`get_video_meta` or `stream_content`.) -/
theorem C1_age_restricted_amended (rc : Int) (stderr : String) (parses : Bool)
    (data : List Nat) (ex : Bool) (hrc : rc ≠ 0)
    (hmark : isAgeRestrictedText stderr = true) :
    get_video_meta rc stderr parses = MetaOutcome.ageRestricted403 ∧
    stream_content rc stderr data = [] ∧
    download_video_mp3 rc ex stderr = Mp3Outcome.httpError 403 := by
  refine ⟨?_, ?_, ?_⟩
  · simp [get_video_meta, hrc, hmark]
  · simp [stream_content, hrc, hmark]
  · simp [download_video_mp3, hrc, hmark]

/-- Witness for the amended C1 at a concrete nonzero exit status and
marker text. -/
theorem C1_age_restricted_amended_witness :
    get_video_meta 1 "ERROR: age-restricted video" true = MetaOutcome.ageRestricted403 ∧
    stream_content 1 "ERROR: age-restricted video" [9] = [] ∧
    download_video_mp3 1 true "ERROR: age-restricted video" = Mp3Outcome.httpError 403 :=
  C1_age_restricted_amended 1 "ERROR: age-restricted video" true [9] true
    (by decide) (by decide)

/-- C6: on a nonzero exit of the direct-pipe path whose diagnostics carry
no age-restriction marker, the benign merge warning "does not start with
a start code" lets the buffered payload be relayed anyway, while any
other diagnostic text ends the stream with zero bytes. -/
theorem C6_benign_warning (rc : Int) (stderr : String) (data : List Nat)
    (hrc : rc ≠ 0) (hnoage : isAgeRestrictedText stderr = false) :
    (containsSub stderr "does not start with a start code" = true →
      stream_content rc stderr data = relayChunks data) ∧
    (containsSub stderr "does not start with a start code" = false →
      stream_content rc stderr data = []) := by
  constructor
  · intro hben
    simp [stream_content, hrc, hnoage, hben]
  · intro hben
    simp [stream_content, hrc, hnoage, hben]

/-- Witness for C6: the benign warning relays the payload, other
diagnostics yield nothing. -/
theorem C6_benign_warning_witness :
    stream_content 1 "WARNING: x does not start with a start code" [5, 6] = [5, 6] ∧
    stream_content 1 "ERROR: fragment not found" [5, 6] = [] := by
  constructor
  · have h := (C6_benign_warning 1 "WARNING: x does not start with a start code" [5, 6]
      (by decide) (by decide)).1 (by decide)
    rw [h]
    decide
  · exact (C6_benign_warning 1 "ERROR: fragment not found" [5, 6]
      (by decide) (by decide)).2 (by decide)

/-- C7: on the mp3 download path, a nonzero exit or a missing output file
fails the request before any bytes are sent — no streaming response is
constructed — with status 403 when the diagnostics contain an
age-restriction marker and 502 otherwise. -/
theorem C7_mp3_failure (rc : Int) (ex : Bool) (stderr : String)
    (hfail : rc ≠ 0 ∨ ex = false) :
    download_video_mp3 rc ex stderr ≠ Mp3Outcome.fileStream ∧
    (isAgeRestrictedText stderr = true →
      download_video_mp3 rc ex stderr = Mp3Outcome.httpError 403) ∧
    (isAgeRestrictedText stderr = false →
      download_video_mp3 rc ex stderr = Mp3Outcome.httpError 502) := by
  refine ⟨?_, fun hmark => ?_, fun hmark => ?_⟩
  · simp only [download_video_mp3, if_pos hfail]
    cases isAgeRestrictedText stderr <;> simp
  · simp [download_video_mp3, hfail, hmark]
  · simp [download_video_mp3, hfail, hmark]

/-- Witness for C7: a zero exit with a missing output file still fails
(502 here, with no marker), and a nonzero exit with marker text gives
403. -/
theorem C7_mp3_failure_witness :
    download_video_mp3 0 false "transcode failed" = Mp3Outcome.httpError 502 ∧
    download_video_mp3 2 true "Sign in to confirm your age" = Mp3Outcome.httpError 403 :=
  ⟨(C7_mp3_failure 0 false "transcode failed" (Or.inr rfl)).2.2 (by decide),
   (C7_mp3_failure 2 true "Sign in to confirm your age" (Or.inl (by decide))).2.1 (by decide)⟩

/-! ## Python max: the first maximal element wins -/

theorem pyMaxFold_spec {α β : Type} [LinearOrder β] (key : α → β) :
    ∀ (xs : List α) (x : α),
      ∃ l₁ l₂, x :: xs = l₁ ++ pyMaxFold key x xs :: l₂ ∧
        (∀ g ∈ l₁, key g < key (pyMaxFold key x xs)) ∧
        (∀ g ∈ l₂, key g ≤ key (pyMaxFold key x xs)) := by
  intro xs
  induction xs with
  | nil =>
    intro x
    exact ⟨[], [], rfl, by simp, by simp⟩
  | cons y ys ih =>
    intro x
    have hstep : pyMaxFold key x (y :: ys) =
        pyMaxFold key (if key x < key y then y else x) ys := rfl
    by_cases h : key x < key y
    · rw [hstep, if_pos h]
      obtain ⟨m₁, m₂, hdec, hlt, hle⟩ := ih y
      have hyr : key y ≤ key (pyMaxFold key y ys) := by
        cases m₁ with
        | nil =>
          simp only [List.nil_append] at hdec
          injection hdec with h1 _
          exact le_of_eq (congrArg key h1)
        | cons c m₁ =>
          simp only [List.cons_append] at hdec
          injection hdec with h1 _
          have hc := hlt c (List.mem_cons_self c m₁)
          rw [← h1] at hc
          exact le_of_lt hc
      refine ⟨x :: m₁, m₂, ?_, ?_, hle⟩
      · rw [List.cons_append, ← hdec]
      · intro g hg
        rcases List.mem_cons.mp hg with rfl | hg
        · exact lt_of_lt_of_le h hyr
        · exact hlt g hg
    · rw [hstep, if_neg h]
      obtain ⟨m₁, m₂, hdec, hlt, hle⟩ := ih x
      cases m₁ with
      | nil =>
        simp only [List.nil_append] at hdec
        injection hdec with h1 h2
        refine ⟨[], y :: ys, ?_, by simp, ?_⟩
        · rw [List.nil_append, ← h1]
        · intro g hg
          rcases List.mem_cons.mp hg with rfl | hg
          · rw [← h1]
            exact le_of_not_lt h
          · exact hle g (h2 ▸ hg)
      | cons c m₁ =>
        simp only [List.cons_append] at hdec
        injection hdec with h1 h2
        have hxr : key x < key (pyMaxFold key x ys) := by
          have hc := hlt c (List.mem_cons_self c m₁)
          rw [← h1] at hc
          exact hc
        refine ⟨x :: y :: m₁, m₂, ?_, ?_, hle⟩
        · rw [List.cons_append, List.cons_append, ← h2]
        · intro g hg
          rcases List.mem_cons.mp hg with rfl | hg
          · exact hxr
          rcases List.mem_cons.mp hg with rfl | hg
          · exact lt_of_le_of_lt (le_of_not_lt h) hxr
          · exact hlt g (List.mem_cons_of_mem c hg)

theorem pyMaxList_spec {α β : Type} [LinearOrder β] (key : α → β)
    (l : List α) (f : α) (h : pyMaxList key l = some f) :
    ∃ l₁ l₂, l = l₁ ++ f :: l₂ ∧ (∀ g ∈ l₁, key g < key f) ∧ (∀ g ∈ l₂, key g ≤ key f) := by
  cases l with
  | nil => simp [pyMaxList] at h
  | cons x xs =>
    have h2 : pyMaxFold key x xs = f := by
      simpa [pyMaxList] using h
    obtain ⟨l₁, l₂, hdec, hlt, hle⟩ := pyMaxFold_spec key xs x
    rw [h2] at hdec hlt hle
    exact ⟨l₁, l₂, hdec, hlt, hle⟩

theorem pyMaxList_mem {α β : Type} [LinearOrder β] (key : α → β)
    (l : List α) (f : α) (h : pyMaxList key l = some f) : f ∈ l := by
  obtain ⟨l₁, l₂, hdec, -, -⟩ := pyMaxList_spec key l f h
  rw [hdec]
  exact List.mem_append.mpr (Or.inr (List.mem_cons_self f l₂))

theorem pyMaxList_le {α β : Type} [LinearOrder β] (key : α → β)
    (l : List α) (f : α) (h : pyMaxList key l = some f) :
    ∀ g ∈ l, key g ≤ key f := by
  obtain ⟨l₁, l₂, hdec, hlt, hle⟩ := pyMaxList_spec key l f h
  intro g hg
  rw [hdec] at hg
  rcases List.mem_append.mp hg with hg | hg
  · exact le_of_lt (hlt g hg)
  · rcases List.mem_cons.mp hg with rfl | hg
    · exact le_rfl
    · exact hle g hg

/-! ## Stream selection (C3, C4, C5) -/

/-- C3: every stream the preview's video selector picks has a video
codec, no audio codec, and height at most the ceiling `h` (an absent
height counting as 0), and it is the first maximum of the filtered list
under the lexicographic `(height, vbr)` key — every candidate before it
has a strictly smaller key and every candidate after it a key at most
equal, so the first maximum wins ties. -/
theorem C3_video_selection (h : Nat) (formats : List SourceStream)
    (f : SourceStream) (hf : best_video h formats = some f) :
    (f.vcodec ≠ some "none" ∧ f.acodec = some "none" ∧ f.height.getD 0 ≤ h) ∧
    (∀ g ∈ video_streams h formats, vidKey g ≤ vidKey f) ∧
    ∃ l₁ l₂, video_streams h formats = l₁ ++ f :: l₂ ∧
      (∀ g ∈ l₁, vidKey g < vidKey f) ∧ (∀ g ∈ l₂, vidKey g ≤ vidKey f) := by
  refine ⟨?_, pyMaxList_le vidKey _ f hf, pyMaxList_spec vidKey _ f hf⟩
  have hmem : f ∈ video_streams h formats := pyMaxList_mem vidKey _ f hf
  have hprop := (List.mem_filter.mp hmem).2
  simp only [Bool.and_eq_true, decide_eq_true_eq] at hprop
  exact ⟨hprop.1.1, hprop.1.2, hprop.2⟩

/-- Witness for C3 at a concrete ceiling and stream set: the selected
stream satisfies the filter bound and dominates a tying later candidate. -/
theorem C3_video_selection_witness :
    (witC3a.vcodec ≠ some "none" ∧ witC3a.acodec = some "none" ∧
      witC3a.height.getD 0 ≤ 720) ∧
    vidKey witC3b ≤ vidKey witC3a :=
  have hb := C3_video_selection 720 [witC3a, witC3b, witC3c] witC3a (by decide)
  ⟨hb.1, hb.2.1 witC3b (by decide)⟩

/-- C4: for an mp3 preview the chosen stream is the first maximum of the
audio-only candidates (audio codec present, video codec absent) under the
`abr` key, ties broken by encounter order; when no audio-only stream
exists nothing is selected and the rendered estimated size is "N/A". -/
theorem C4_mp3_selection (formats : List SourceStream) :
    (audio_streams formats = [] → best_audio formats = none ∧
      format_bytes (mp3_estimated_size formats) = "N/A") ∧
    ∀ f, best_audio formats = some f →
      (f.acodec ≠ some "none" ∧ f.vcodec = some "none") ∧
      (∀ g ∈ audio_streams formats, audKey g ≤ audKey f) ∧
      ∃ l₁ l₂, audio_streams formats = l₁ ++ f :: l₂ ∧
        (∀ g ∈ l₁, audKey g < audKey f) ∧ (∀ g ∈ l₂, audKey g ≤ audKey f) := by
  constructor
  · intro hempty
    have hnone : best_audio formats = none := by
      rw [best_audio, hempty]
      rfl
    refine ⟨hnone, ?_⟩
    rw [mp3_estimated_size, hnone]
    rfl
  · intro f hf
    refine ⟨?_, pyMaxList_le audKey _ f hf, pyMaxList_spec audKey _ f hf⟩
    have hmem : f ∈ audio_streams formats := pyMaxList_mem audKey _ f hf
    have hprop := (List.mem_filter.mp hmem).2
    simpa [Bool.and_eq_true, decide_eq_true_eq] using hprop

/-- Witness for C4: the empty stream set previews as "N/A" without a
selection, and on a concrete set the higher-abr audio-only stream wins. -/
theorem C4_mp3_selection_witness :
    (best_audio [] = none ∧ format_bytes (mp3_estimated_size []) = "N/A") ∧
    (witC4b.acodec ≠ some "none" ∧ witC4b.vcodec = some "none") ∧
    audKey witC4a ≤ audKey witC4b :=
  have h1 := (C4_mp3_selection []).1 rfl
  have h2 := (C4_mp3_selection [witC4a, witC4b]).2 witC4b (by decide)
  ⟨h1, h2.1, h2.2.1 witC4a (by decide)⟩

theorem size_or_zero_eq_amended (f : SourceStream) :
    size_or_zero f = amendedCompSize f := by
  rcases f with ⟨v, a, hh, vb, ab, fs, fa⟩
  rcases fs with _ | n
  · rcases fa with _ | m <;> simp [size_or_zero, sizeField, pyOr, pyTruthy, amendedCompSize]
  · rcases n with _ | n
    · rcases fa with _ | m <;>
        simp [size_or_zero, sizeField, pyOr, pyTruthy, amendedCompSize]
    · simp [size_or_zero, sizeField, pyOr, pyTruthy, amendedCompSize]

/-- Counterexample to C5 as stated: when the best video stream's exact
size is recorded as 0 alongside a known approximate size, the code's
`filesize or filesize_approx or 0` treats the 0 as falsy and uses the
approximate size, while the claim's "exact size preferred over
approximate, unknown replaced by 0" yields the exact 0. -/
theorem C5_counterexample :
    best_video 1080 [cexC5v, cexC5a] = some cexC5v ∧
    best_audio [cexC5v, cexC5a] = some cexC5a ∧
    video_estimated_size 1080 [cexC5v, cexC5a] = some 612 ∧
    claimCompSize cexC5v + claimCompSize cexC5a = 100 ∧
    video_estimated_size 1080 [cexC5v, cexC5a] ≠
      some (claimCompSize cexC5v + claimCompSize cexC5a) := by decide

/-- C5 (amended): when both a best silent-video and a best audio-only
stream exist, the estimated size is the sum of their component sizes
along `filesize or filesize_approx or 0` — the exact size is preferred
over the approximate one except that an exact size recorded as 0 is
Python-falsy and defers to the approximate size, with a fully unknown
component contributing 0; only when either of the two is missing does
the selector fall back to the combined (video+audio) streams under the
same height ceiling, picked by the same lexicographic `(height, vbr)`
order, whose `filesize or filesize_approx` (possibly `none`, rendered
"N/A") becomes the estimate. -/
theorem C5_estimate_amended (h : Nat) (formats : List SourceStream) :
    (∀ bv ba, best_video h formats = some bv → best_audio formats = some ba →
      video_estimated_size h formats = some (amendedCompSize bv + amendedCompSize ba)) ∧
    ((best_video h formats = none ∨ best_audio formats = none) →
      video_estimated_size h formats = (best_combined h formats).bind sizeField ∧
      ∀ c, best_combined h formats = some c →
        (c.vcodec ≠ some "none" ∧ c.acodec ≠ some "none" ∧ c.height.getD 0 ≤ h) ∧
        ∀ g ∈ combined_streams h formats, vidKey g ≤ vidKey c) := by
  constructor
  · intro bv ba hbv hba
    simp only [video_estimated_size, hbv, hba, size_or_zero_eq_amended]
  · intro hmiss
    constructor
    · rw [video_estimated_size]
      have hcases : ∀ r : Option SourceStream,
          (match r with
            | some bc => sizeField bc
            | none => none) = r.bind sizeField := by
        intro r
        cases r <;> rfl
      rcases hmiss with hm | hm
      · rw [hm]
        exact hcases _
      · rw [hm]
        cases hv : best_video h formats
        · exact hcases _
        · exact hcases _
    · intro c hc
      refine ⟨?_, pyMaxList_le vidKey _ c hc⟩
      have hmem : c ∈ combined_streams h formats := pyMaxList_mem vidKey _ c hc
      have hprop := (List.mem_filter.mp hmem).2
      simp only [Bool.and_eq_true, decide_eq_true_eq] at hprop
      exact ⟨hprop.1.1, hprop.1.2, hprop.2⟩

/-- Witness for the amended C5: on the concrete set from the
counterexample the sum rule with Python falsiness gives 612, and with the
audio stream removed the selector falls back to the combined streams. -/
theorem C5_estimate_amended_witness :
    video_estimated_size 1080 [cexC5v, cexC5a] =
      some (amendedCompSize cexC5v + amendedCompSize cexC5a) ∧
    video_estimated_size 1080 [cexC5v] = (best_combined 1080 [cexC5v]).bind sizeField :=
  ⟨(C5_estimate_amended 1080 [cexC5v, cexC5a]).1 cexC5v cexC5a (by decide) (by decide),
   ((C5_estimate_amended 1080 [cexC5v]).2 (Or.inr (by decide))).1⟩

/-! ## format_bytes (C8) -/

theorem fb_cond_iff (s k : Nat) :
    (1024 : ℚ) ≤ (s : ℚ) / 1024 ^ k ↔ 1024 ^ (k + 1) ≤ s := by
  rw [le_div_iff₀ (by positivity : (0 : ℚ) < 1024 ^ k)]
  have h : (1024 : ℚ) * 1024 ^ k = ((1024 ^ (k + 1) : Nat) : ℚ) := by
    push_cast
    ring
  rw [h, Nat.cast_le]

theorem fb_div_step (s k : Nat) :
    (s : ℚ) / 1024 ^ k / 1024 = (s : ℚ) / 1024 ^ (k + 1) := by
  rw [div_div, pow_succ]

theorem fbLoop_eq_fbLoopN (s : Nat) : ∀ (fuel n : Nat),
    fbLoop fuel ((s : ℚ) / 1024 ^ n) n =
      ((s : ℚ) / 1024 ^ fbLoopN fuel s n, fbLoopN fuel s n) := by
  intro fuel
  induction fuel with
  | zero => intro n; rfl
  | succ m ih =>
    intro n
    by_cases hc : 1024 ^ (n + 1) ≤ s ∧ n < 4
    · have hcond : (1024 : ℚ) ≤ (s : ℚ) / 1024 ^ n ∧ n < 4 :=
        ⟨(fb_cond_iff s n).mpr hc.1, hc.2⟩
      show (if (1024 : ℚ) ≤ (s : ℚ) / 1024 ^ n ∧ n < 4 then
          fbLoop m ((s : ℚ) / 1024 ^ n / 1024) (n + 1) else ((s : ℚ) / 1024 ^ n, n)) = _
      rw [if_pos hcond, fb_div_step, ih (n + 1)]
      have hN : fbLoopN (m + 1) s n = fbLoopN m s (n + 1) := by
        show (if 1024 ^ (n + 1) ≤ s ∧ n < 4 then fbLoopN m s (n + 1) else n) = _
        rw [if_pos hc]
      rw [hN]
    · have hcond : ¬ ((1024 : ℚ) ≤ (s : ℚ) / 1024 ^ n ∧ n < 4) := by
        intro hcnd
        exact hc ⟨(fb_cond_iff s n).mp hcnd.1, hcnd.2⟩
      show (if (1024 : ℚ) ≤ (s : ℚ) / 1024 ^ n ∧ n < 4 then
          fbLoop m ((s : ℚ) / 1024 ^ n / 1024) (n + 1) else ((s : ℚ) / 1024 ^ n, n)) = _
      rw [if_neg hcond]
      have hN : fbLoopN (m + 1) s n = n := by
        show (if 1024 ^ (n + 1) ≤ s ∧ n < 4 then fbLoopN m s (n + 1) else n) = _
        rw [if_neg hc]
      rw [hN]

theorem fbLoopN_step (fuel s n : Nat) (h : 1024 ^ (n + 1) ≤ s ∧ n < 4) :
    fbLoopN (fuel + 1) s n = fbLoopN fuel s (n + 1) := by
  show (if 1024 ^ (n + 1) ≤ s ∧ n < 4 then fbLoopN fuel s (n + 1) else n) = _
  rw [if_pos h]

theorem fbLoopN_stop (fuel s n : Nat) (h : ¬ (1024 ^ (n + 1) ≤ s ∧ n < 4)) :
    fbLoopN (fuel + 1) s n = n := by
  show (if 1024 ^ (n + 1) ≤ s ∧ n < 4 then fbLoopN fuel s (n + 1) else n) = _
  rw [if_neg h]


theorem fbLoopN_eq_unitIndex (s : Nat) : fbLoopN 4 s 0 = unitIndex s := by
  have q1 : (1024 : Nat) ^ (0 + 1) = 1024 := by norm_num
  have q2 : (1024 : Nat) ^ (1 + 1) = 1048576 := by norm_num
  have q3 : (1024 : Nat) ^ (2 + 1) = 1073741824 := by norm_num
  have q4 : (1024 : Nat) ^ (3 + 1) = 1099511627776 := by norm_num
  have p2 : (1024 : Nat) ^ 2 = 1048576 := by norm_num
  have p3 : (1024 : Nat) ^ 3 = 1073741824 := by norm_num
  have p4 : (1024 : Nat) ^ 4 = 1099511627776 := by norm_num
  rcases lt_or_le s 1024 with h1 | h1
  · rw [fbLoopN_stop 3 s 0 (by rintro ⟨hc, -⟩; rw [q1] at hc; omega)]
    simp only [unitIndex, p2, p3, p4]
    split_ifs <;> omega
  rcases lt_or_le s (1024 ^ 2) with h2 | h2
  · rw [p2] at h2
    rw [fbLoopN_step 3 s 0 ⟨by rw [q1]; exact h1, by norm_num⟩,
      fbLoopN_stop 2 s 1 (by rintro ⟨hc, -⟩; rw [q2] at hc; omega)]
    simp only [unitIndex, p2, p3, p4]
    split_ifs <;> omega
  rcases lt_or_le s (1024 ^ 3) with h3 | h3
  · rw [p2] at h2
    rw [p3] at h3
    rw [fbLoopN_step 3 s 0 ⟨by rw [q1]; exact h1, by norm_num⟩,
      fbLoopN_step 2 s 1 ⟨by rw [q2]; exact h2, by norm_num⟩,
      fbLoopN_stop 1 s 2 (by rintro ⟨hc, -⟩; rw [q3] at hc; omega)]
    simp only [unitIndex, p2, p3, p4]
    split_ifs <;> omega
  rcases lt_or_le s (1024 ^ 4) with h4 | h4
  · rw [p2] at h2
    rw [p3] at h3
    rw [p4] at h4
    rw [fbLoopN_step 3 s 0 ⟨by rw [q1]; exact h1, by norm_num⟩,
      fbLoopN_step 2 s 1 ⟨by rw [q2]; exact h2, by norm_num⟩,
      fbLoopN_step 1 s 2 ⟨by rw [q3]; exact h3, by norm_num⟩,
      fbLoopN_stop 0 s 3 (by rintro ⟨hc, -⟩; rw [q4] at hc; omega)]
    simp only [unitIndex, p2, p3, p4]
    split_ifs <;> omega
  · rw [p2] at h2
    rw [p3] at h3
    rw [p4] at h4
    rw [fbLoopN_step 3 s 0 ⟨by rw [q1]; exact h1, by norm_num⟩,
      fbLoopN_step 2 s 1 ⟨by rw [q2]; exact h2, by norm_num⟩,
      fbLoopN_step 1 s 2 ⟨by rw [q3]; exact h3, by norm_num⟩,
      fbLoopN_step 0 s 3 ⟨by rw [q4]; exact h4, by norm_num⟩]
    have h0 : fbLoopN 0 s (3 + 1) = 4 := rfl
    rw [h0]
    simp only [unitIndex, p2, p3, p4]
    split_ifs <;> omega

/-- C8: `format_bytes` renders `None` as "N/A", 0 as "0.00 B", 1024 as
"1.00 KB" and 1536000 as "1.46 MB"; in general the dividing loop (run
over exact rationals) lands on the value `s / 1024 ^ n` at exactly the
spec's unit index `n` — the largest base-1024 unit among B, KB, MB, GB,
TB whose magnitude is at least 1, the TB tier uncapped — and the result
renders that value to two decimals followed by the unit label. -/
theorem C8_format_bytes :
    format_bytes none = "N/A" ∧
    format_bytes (some 0) = "0.00 B" ∧
    format_bytes (some 1024) = "1.00 KB" ∧
    format_bytes (some 1536000) = "1.46 MB" ∧
    ∀ s : Nat,
      fbLoop 4 (s : ℚ) 0 = ((s : ℚ) / 1024 ^ unitIndex s, unitIndex s) ∧
      format_bytes (some s) =
        formatFixed2 s (1024 ^ unitIndex s) ++ " " ++ power_labels (unitIndex s) := by
  refine ⟨rfl, by decide, by decide, by decide, fun s => ⟨?_, ?_⟩⟩
  · have h := fbLoop_eq_fbLoopN s 4 0
    rw [pow_zero, div_one] at h
    rw [h, fbLoopN_eq_unitIndex]
  · show formatFixed2 s (1024 ^ fbLoopN 4 s 0) ++ " " ++ power_labels (fbLoopN 4 s 0) = _
    rw [fbLoopN_eq_unitIndex]

/-! ## sanitize_filename (C9) -/

theorem head?_dropWhile_false (p : Char → Bool) (l : List Char) (c : Char)
    (h : (l.dropWhile p).head? = some c) : p c = false := by
  have hm := List.head?_dropWhile_not p l
  rw [h] at hm
  simpa using hm

theorem isPre_head (v u : List Char) (c : Char) (hp : v <+: u)
    (h : v.head? = some c) : u.head? = some c := by
  obtain ⟨t, rfl⟩ := hp
  cases v with
  | nil => simp at h
  | cons a w => simpa using h

theorem pyStrip_head (l : List Char) (c : Char) (h : (pyStrip l).head? = some c) :
    stripSet c = false := by
  have hpre : ((l.dropWhile stripSet).reverse.dropWhile stripSet).reverse <+:
      l.dropWhile stripSet := by
    refine List.reverse_suffix.mp ?_
    rw [List.reverse_reverse]
    exact List.dropWhile_suffix stripSet
  have h2 : (l.dropWhile stripSet).head? = some c := isPre_head _ _ c hpre h
  exact head?_dropWhile_false stripSet l c h2

theorem pyStrip_getLast (l : List Char) (c : Char)
    (h : (pyStrip l).getLast? = some c) : stripSet c = false := by
  rw [pyStrip, List.getLast?_reverse] at h
  exact head?_dropWhile_false stripSet _ c h

theorem pyStrip_subset (l : List Char) : pyStrip l ⊆ l := by
  intro c hc
  rw [pyStrip, List.mem_reverse] at hc
  have h1 := (List.dropWhile_sublist stripSet).subset hc
  rw [List.mem_reverse] at h1
  exact (List.dropWhile_sublist stripSet).subset h1

/-- C9: `sanitize_filename` maps the spec's example exactly, collapses
each whitespace run to a single underscore (second example), removes
disallowed characters rather than replacing them, trims leading and
trailing `_` `.` `-`, and returns "download" for an empty result; in
general its output is never empty, contains only characters from
`[A-Za-z0-9_.-]`, and neither starts nor ends with a trim-set
character. -/
theorem C9_sanitize_filename :
    sanitize_filename "My Video!! (2023).mp4" = "My_Video_2023.mp4" ∧
    sanitize_filename "a \t\n b" = "a_b" ∧
    sanitize_filename "!!!" = "download" ∧
    sanitize_filename "__a.b__" = "a.b" ∧
    ∀ s : String,
      (sanitize_filename s).data ≠ [] ∧
      (∀ c ∈ (sanitize_filename s).data, allowedChar c = true) ∧
      (∀ c, (sanitize_filename s).data.head? = some c → stripSet c = false) ∧
      (∀ c, (sanitize_filename s).data.getLast? = some c → stripSet c = false) := by
  refine ⟨by decide, by decide, by decide, by decide, fun s => ?_⟩
  by_cases hempty : pyStrip ((collapseWs s.data).filter allowedChar) = []
  · have hres : sanitize_filename s = "download" := by
      unfold sanitize_filename
      rw [if_pos hempty]
    rw [hres]
    refine ⟨by decide, by decide, ?_, ?_⟩
    · intro c hc
      have h0 : ("download" : String).data.head? = some 'd' := rfl
      rw [h0] at hc
      injection hc with h1
      rw [← h1]
      decide
    · intro c hc
      have h0 : ("download" : String).data.getLast? = some 'd' := rfl
      rw [h0] at hc
      injection hc with h1
      rw [← h1]
      decide
  · have hres : sanitize_filename s =
        String.mk (pyStrip ((collapseWs s.data).filter allowedChar)) := by
      unfold sanitize_filename
      rw [if_neg hempty]
    rw [hres]
    refine ⟨by simpa using hempty, ?_, ?_, ?_⟩
    · intro c hc
      have hc2 : c ∈ (collapseWs s.data).filter allowedChar :=
        pyStrip_subset _ (by simpa using hc)
      exact (List.mem_filter.mp hc2).2
    · intro c hc
      exact pyStrip_head _ c (by simpa using hc)
    · intro c hc
      exact pyStrip_getLast _ c (by simpa using hc)

/-- Witness for C9 at the concrete input "ab": the output's first
character is in the allowed class and outside the trim set. -/
theorem C9_sanitize_filename_witness :
    allowedChar 'a' = true ∧ stripSet 'a' = false :=
  have h := C9_sanitize_filename.2.2.2.2 "ab"
  ⟨h.2.1 'a' (by decide), h.2.2.1 'a' (by decide)⟩

/-! ## Quality parsing in the preview endpoint (C10) -/

/-- C10: in the preview endpoint's height-ceiling computation, a quality
string containing the character p whose remaining characters (after
deleting every p) are not a valid integer literal — such as "p",
"apple", or "1080px" — makes `int(...)` raise an uncaught ValueError
(modelled as `none`), while "1080p" parses to 1080; a quality string
with no p at all always takes the unbounded-sentinel branch 10000, and
one containing p is always handed to `int()` on the p-deleted
characters. -/
theorem C10_quality_value_error :
    previewHeightReq "p" = none ∧
    previewHeightReq "apple" = none ∧
    previewHeightReq "1080px" = none ∧
    previewHeightReq "1080p" = some 1080 ∧
    (∀ q : String, q.data.contains 'p' = false → previewHeightReq q = some 10000) ∧
    (∀ q : String, q.data.contains 'p' = true →
      previewHeightReq q =
        pyIntOfString (String.mk (q.data.filter fun c => !(c == 'p')))) := by
  refine ⟨by decide, by decide, by decide, by decide, fun q hq => ?_, fun q hq => ?_⟩
  · rw [previewHeightReq, if_neg (by simpa using hq)]
  · rw [previewHeightReq, if_pos hq]

/-- Witness for C10: "best" takes the sentinel branch, "720p" is handed
to the integer parse of "720". -/
theorem C10_quality_value_error_witness :
    previewHeightReq "best" = some 10000 ∧
    previewHeightReq "720p" =
      pyIntOfString (String.mk ("720p".data.filter fun c => !(c == 'p'))) :=
  ⟨C10_quality_value_error.2.2.2.2.1 "best" (by decide),
   C10_quality_value_error.2.2.2.2.2 "720p" (by decide)⟩
